import Mathlib

/-!
Shallow embedding of the AppCtrl process supervisor
(`src/src-tauri/src/lib.rs`) and verification of its specification.

The Rust source manages a registry of child processes behind a single
mutex, spawns output-relay and exit-watcher threads per process, and
offers host-inspection commands (`get_listening_ports`,
`kill_process_by_name`, ...).  Pure computations (string parsing, event
payload construction, registry map operations) are translated directly;
OS interactions (spawn results, `try_wait` outcomes, `taskkill` output)
become explicit oracle inputs; the mutex discipline is modelled by an
interleaving machine whose atomic actions are exactly the source's
critical sections.
-/

namespace AppCtrl

/-- An event emitted to the GUI layer.  `app-output` carries a JSON
payload `{appId, line}`; `app-stopped` carries `{appId}`.  These mirror
the `app_handle.emit` calls in `lib.rs`. -/
inductive Ev where
  | appOutput (appId line : String)
  | appStopped (appId : String)
deriving DecidableEq, Repr

/-- Line 112: the `started` diagnostic line `"✓ Started: {path}"`. -/
def startedLine (path : String) : String := "✓ Started: " ++ path

/-- Line 61: the working-directory diagnostic `"📁 Working dir: {dir}"`. -/
def wdLine (dir : String) : String := "📁 Working dir: " ++ dir

/-- Line 101: the spawn-failure diagnostic `"❌ Failed to start: {e}"`. -/
def spawnFailLine (e : String) : String := "❌ Failed to start: " ++ e

/-- Lines 159-164: the exit diagnostic composed by the exit watcher from
the (already `unwrap_or(-1)`-normalised) exit code. -/
def exitMsg (code : Int) : String :=
  if code = 0 then "✓ Process exited successfully"
  else "⚠ Process exited with code: " ++ toString code

/-- Lines 120-132: the stdout relay forwards each line verbatim. -/
def stdoutEvent (appId line : String) : Ev := .appOutput appId line

/-- Lines 134-146: the stderr relay prepends `"[stderr] "` to each line. -/
def stderrEvent (appId line : String) : Ev :=
  .appOutput appId ("[stderr] " ++ line)

/-! ## Environment block construction (lines 69-83)

`Command::env` keeps one value per key, a later call overriding an
earlier one; we model the accumulated environment as an association
list with replace-on-insert. -/

/-- One `cmd.env(key, value)` call.  The accumulated environment is an
association list read through `envLookup`, which returns the most
recently set binding, so prepending models the map override. -/
def envInsert (key value : String) (m : List (String × String)) :
    List (String × String) :=
  (key, value) :: m

/-- Look up a key in the accumulated environment (latest call wins). -/
def envLookup (key : String) : List (String × String) → Option String
  | [] => none
  | (k, v) :: m => if k = key then some v else envLookup key m

/-- Apply a sequence of `cmd.env` calls in order. -/
def applyEnv (m : List (String × String)) :
    List (String × String) → List (String × String)
  | [] => m
  | (k, v) :: ps => applyEnv (envInsert k v m) ps

/-- Lines 70-72: the three UTF-8 defaults, applied unconditionally
before the user block. -/
def utf8Defaults : List (String × String) :=
  [("PYTHONIOENCODING", "utf-8"), ("PYTHONUTF8", "1"), ("CHCP", "65001")]

/-! ### String machinery

The `String` operations the Rust code uses, reimplemented by structural
recursion over the character list (the core-library versions do not
reduce inside the kernel).  `trimS` models `str::trim` for the ASCII
whitespace relevant here. -/

/-- Split on every character satisfying `p` (Rust `str::split` with a
char pattern: empty pieces are kept). -/
def splitChars (p : Char → Bool) : List Char → List (List Char)
  | [] => [[]]
  | c :: rest =>
    let r := splitChars p rest
    if p c then [] :: r
    else
      match r with
      | [] => [[c]]
      | piece :: more => (c :: piece) :: more

/-- Split on a non-empty separator string; `fuel` bounds the recursion
and is instantiated with the input length, which the consumption of at
least one character per step never exhausts. -/
def splitOnAuxC (sep : List Char) (fuel : Nat) (l acc : List Char) :
    List (List Char) :=
  match fuel with
  | 0 => [acc.reverse ++ l]
  | fuel + 1 =>
    match l with
    | [] => [acc.reverse]
    | c :: rest =>
      if sep.isPrefixOf (c :: rest) then
        acc.reverse :: splitOnAuxC sep fuel (List.drop sep.length (c :: rest)) []
      else splitOnAuxC sep fuel rest (c :: acc)

/-- Rust `str::split` with a string pattern (also `String::splitOn`). -/
def splitOnC (s sep : String) : List String :=
  if sep = "" then [s]
  else (splitOnAuxC sep.data s.data.length s.data []).map (fun l => ⟨l⟩)

/-- Does the string end with the character `c`? -/
def endsWithChar (c : Char) (s : String) : Bool :=
  match s.data.getLast? with
  | some d => d = c
  | none => false

/-- `str::trim` (ASCII whitespace). -/
def trimS (s : String) : String :=
  ⟨((s.data.dropWhile Char.isWhitespace).reverse.dropWhile
      Char.isWhitespace).reverse⟩

/-- Decimal digit accumulation for `parse`. -/
def digitsToNatAux (acc : Nat) : List Char → Option Nat
  | [] => some acc
  | c :: rest =>
    if c.isDigit then digitsToNatAux (acc * 10 + (c.toNat - '0'.toNat)) rest
    else none

/-- All-digit string to `Nat` (empty input rejected). -/
def toNatC (s : String) : Option Nat :=
  match s.data with
  | [] => none
  | l => digitsToNatAux 0 l

/-- Remove one trailing `'\r'`, as Rust's `str::lines` does. -/
def stripCr (s : String) : String :=
  if endsWithChar '\r' s then ⟨s.data.dropLast⟩ else s

/-- Rust `str::lines`: split on `'\n'`, strip a trailing `'\r'` from
each piece, and do not produce a final empty line for a trailing
newline. -/
def rustLines (s : String) : List String :=
  if s = "" then []
  else
    let ps := splitOnC s "\n"
    (if endsWithChar '\n' s then ps.dropLast else ps).map stripCr

/-- Rust `str::split_once('=')`: split at the first `'='`, if any. -/
def splitOnceEq (s : String) : Option (String × String) :=
  let pre := s.data.takeWhile (fun c => c ≠ '=')
  let post := s.data.dropWhile (fun c => c ≠ '=')
  match post with
  | [] => none
  | _ :: rest => some (⟨pre⟩, ⟨rest⟩)

/-- Lines 74-83: parse the newline-delimited `KEY=VALUE` block into the
ordered list of `cmd.env` calls it produces: trim each line, skip empty
lines and lines without `'='`, trim key and value. -/
def parseEnvBlock (envVars : String) : List (String × String) :=
  if envVars = "" then []
  else
    (rustLines envVars).filterMap (fun line =>
      let line := trimS line
      if line = "" then none
      else match splitOnceEq line with
        | none => none
        | some (k, v) => some (trimS k, trimS v))

/-- The full environment of the spawned command: the UTF-8 defaults
followed by the user block, accumulated left to right. -/
def buildEnv (envVars : String) : List (String × String) :=
  applyEnv (applyEnv [] utf8Defaults) (parseEnvBlock envVars)

/-- The value of the LAST assignment to `key` in a list of `cmd.env`
calls, if any. -/
def lastAssign (key : String) : List (String × String) → Option String
  | [] => none
  | (k, v) :: ps =>
    match lastAssign key ps with
    | some w => some w
    | none => if k = key then some v else none

theorem envLookup_applyEnv (k : String) (ps : List (String × String))
    (m : List (String × String)) :
    envLookup k (applyEnv m ps) =
      match lastAssign k ps with
      | some v => some v
      | none => envLookup k m := by
  induction ps generalizing m with
  | nil => rfl
  | cons p ps ih =>
    obtain ⟨a, b⟩ := p
    rw [applyEnv, ih]
    cases h : lastAssign k ps with
    | some v => simp [lastAssign, h]
    | none =>
      by_cases hak : a = k
      · subst hak; simp [lastAssign, h, envInsert, envLookup]
      · simp [lastAssign, h, hak, envInsert, envLookup]

/-! ## The `start_app` command, sequential view (lines 26-118)

The registry here is the plain id → handle map; OS interactions
(`Path::parent`, `parent.exists()`, `cmd.spawn()`) are oracle inputs.
OS process handles are numbered by `Nat`. -/

/-- The ready-to-spawn process specification built by lines 45-92:
interpreter invocation, working directory, environment, stdio wiring. -/
structure CmdSpec where
  prog : String
  argsL : List String
  cwd : Option String
  env : List (String × String)
  stdoutPiped : Bool
  stderrPiped : Bool
  stdinNull : Bool
deriving DecidableEq, Repr

instance {ε α : Type} [DecidableEq ε] [DecidableEq α] :
    DecidableEq (Except ε α) := fun a b =>
  match a, b with
  | .ok x, .ok y =>
    if h : x = y then isTrue (by rw [h])
    else isFalse fun hh => h (by cases hh; rfl)
  | .ok _, .error _ => isFalse fun h => Except.noConfusion h
  | .error _, .ok _ => isFalse fun h => Except.noConfusion h
  | .error e, .error f =>
    if h : e = f then isTrue (by rw [h])
    else isFalse fun hh => h (by cases hh; rfl)

/-- Everything observable about one `start_app` call. -/
structure StartOut where
  res : Except String Unit
  reg : List (String × Nat)
  spawnAttempted : Bool
  events : List Ev
  spec : Option CmdSpec
deriving DecidableEq, Repr

/-- Registry membership, as `HashMap::contains_key` (line 40). -/
def regContains (appId : String) : List (String × Nat) → Bool
  | [] => false
  | (k, _) :: r => k = appId || regContains appId r

/-- `HashMap::insert` (line 117); lookups read the latest binding. -/
def regInsertN (appId : String) (h : Nat) (r : List (String × Nat)) :
    List (String × Nat) :=
  (appId, h) :: r

/-- Lines 45-55: the platform interpreter invocation.  On Windows,
`cmd.exe /C "chcp 65001 >nul && {path}"`; otherwise `sh -c {path}`. -/
def baseCommand (isWindows : Bool) (path : String) : String × List String :=
  if isWindows then ("cmd.exe", ["/C", "chcp 65001 >nul && " ++ path])
  else ("sh", ["-c", path])

/-- Lines 57-67: working-directory resolution.  `parentDir` models
`Path::new(&path).parent()` and `parentExists` models
`parent.exists()`, both oracle inputs describing the OS view of
`path`.  Returns the chosen directory and the diagnostic events. -/
def resolveCwd (workingDir _path : String) (parentDir : Option String)
    (parentExists : Bool) (appId : String) : Option String × List Ev :=
  if workingDir ≠ "" then
    (some workingDir, [.appOutput appId (wdLine workingDir)])
  else
    match parentDir with
    | some par => if parentExists && par ≠ "" then (some par, []) else (none, [])
    | none => (none, [])

/-- `start_app` (lines 26-118), up to and including the registry
insert; the relay and watcher threads it spawns afterwards are
modelled by the interleaving machine below.  `_appType` and `_args`
are accepted and ignored exactly as in the source.  `spawn` is the
oracle outcome of `cmd.spawn()`: the new handle or the OS error. -/
def startApp (reg0 : List (String × Nat))
    (appId path _appType workingDir _args envVars : String)
    (isWindows : Bool) (parentDir : Option String) (parentExists : Bool)
    (spawn : Except String Nat) : StartOut :=
  if regContains appId reg0 then
    { res := .error "App is already running", reg := reg0,
      spawnAttempted := false, events := [], spec := none }
  else
    let base := baseCommand isWindows path
    let cwdEv := resolveCwd workingDir path parentDir parentExists appId
    let spec : CmdSpec :=
      { prog := base.1, argsL := base.2, cwd := cwdEv.1,
        env := buildEnv envVars,
        stdoutPiped := true, stderrPiped := true, stdinNull := true }
    match spawn with
    | .error e =>
      { res := .error ("Failed to start: " ++ e), reg := reg0,
        spawnAttempted := true,
        events := cwdEv.2 ++ [.appOutput appId (spawnFailLine e)],
        spec := some spec }
    | .ok h =>
      { res := .ok (), reg := regInsertN appId h reg0,
        spawnAttempted := true,
        events := cwdEv.2 ++ [.appOutput appId (startedLine path)],
        spec := some spec }

/-! ## The registry with ghost history

For the concurrency claims the registry entry additionally records the
spawned handle, the command string of its run, and the index into the
global event log at which it was inserted (a ghost field used only to
state properties; the code stores just the `Child`). -/

/-- One registry entry: the live process handle plus ghost data. -/
structure Entry where
  handle : Nat
  path : String
  ins : Nat
deriving DecidableEq, Repr

/-- The registry: `HashMap<String, Child>` as an association list whose
keys are unique (insert replaces). -/
abbrev Registry := List (String × Entry)

/-- `HashMap::get` / `contains_key`. -/
def rlookup (appId : String) : Registry → Option Entry
  | [] => none
  | (k, e) :: r => if k = appId then some e else rlookup appId r

/-- `HashMap::remove` (and the replacement part of `insert`). -/
def rremove (appId : String) (r : Registry) : Registry :=
  r.filter (fun p => p.1 ≠ appId)

/-- `HashMap::insert`: replaces any existing binding of the key. -/
def rinsert (appId : String) (e : Entry) (r : Registry) : Registry :=
  (appId, e) :: rremove appId r

/-! ## The exit watcher tick (lines 150-185)

One iteration of the watcher loop, holding the lock throughout.  The
outcome of `child.try_wait()` is an oracle input: still running, exited
with `status.code()` (`none` on the signal-killed path, normalised by
`unwrap_or(-1)`), or the check itself erroring. -/

/-- Oracle outcome of one `try_wait` call. -/
inductive TickOutcome where
  | running
  | exited (code : Option Int)
  | checkErr
deriving DecidableEq, Repr

/-- Result of one watcher tick: new registry, events emitted during the
tick, and whether the watcher loop terminates (`break`). -/
def watcherTick (reg : Registry) (appId : String) (out : TickOutcome) :
    Registry × List Ev × Bool :=
  match rlookup appId reg with
  | none => (reg, [], true)
  | some _ =>
    match out with
    | .running => (reg, [], false)
    | .exited st =>
      let code := st.getD (-1)
      (rremove appId reg,
       [.appOutput appId (exitMsg code), .appStopped appId], true)
    | .checkErr => (rremove appId reg, [], true)

/-! ## `kill_process_by_name` (lines 587-614)

The `taskkill /F /IM name` invocation is an oracle: either the command
ran (with an exit status and captured stderr) or launching it failed. -/

/-- Oracle outcome of running `taskkill`. -/
inductive KillExec where
  | ran (success : Bool) (stderrOut : String)
  | execFail (e : String)
deriving DecidableEq, Repr

/-- Rust `str::contains` (substring containment). -/
def containsSub (hay needle : String) : Bool :=
  decide (needle.data <:+: hay.data)

/-- Lines 587-614: forced kill by image name; a failure whose stderr
contains `"not found"` is normalised to success. -/
def killProcessByName (_name : String) (exec : KillExec) :
    Except String Unit :=
  match exec with
  | .execFail e => .error e
  | .ran success stderrOut =>
    if success then .ok ()
    else if containsSub stderrOut "not found" then .ok ()
    else .error stderrOut

/-- Modelled from the spec and the source comment at lines 601-603:
what the missing OS-side `taskkill` does when the image name matches
zero processes — it exits unsuccessfully with the stderr message
`ERROR: The process "{name}" not found.`. -/
def taskkillZeroMatch (name : String) : KillExec :=
  .ran false ("ERROR: The process \"" ++ name ++ "\" not found.")

/-! ## `get_listening_ports` (lines 473-561, Windows branch)

The two OS command outputs (`tasklist /FO CSV /NH` and `netstat -ano`
stdout, after `from_utf8_lossy`) are the inputs; everything after them
is translated directly. -/

/-- One returned record (the `PortInfo` struct, lines 465-471). -/
structure PortInfo where
  port : Nat
  pid : Nat
  name : String
  protocol : String
deriving DecidableEq, Repr

/-- Rust `str::trim_matches(c)`: strip all leading and trailing
occurrences of `c`. -/
def trimMatches (c : Char) (s : String) : String :=
  ⟨((s.data.dropWhile (fun x => x = c)).reverse.dropWhile
      (fun x => x = c)).reverse⟩

/-- Rust `str::parse::<uN>()` for an unsigned type with exclusive bound
`bound`: optional leading `'+'`, then decimal digits, rejecting
overflow. -/
def parseUN (bound : Nat) (s : String) : Option Nat :=
  let t := match s.data with
    | '+' :: rest => (⟨rest⟩ : String)
    | _ => s
  match toNatC t with
  | some n => if n < bound then some n else none
  | none => none

/-- Rust `str::split_whitespace`. -/
def splitWs (s : String) : List String :=
  ((splitChars Char.isWhitespace s.data).map
    (fun l => (⟨l⟩ : String))).filter (fun p => p ≠ "")

/-- Lines 489-499: build the pid → image-name map from the tasklist CSV
output.  `HashMap::insert` again keeps the latest binding. -/
def buildPidMap (tasklistOut : String) : List (Nat × String) :=
  (rustLines tasklistOut).foldl (fun m line =>
    let parts := splitOnC line "\",\""
    if parts.length ≥ 2 then
      let name := trimMatches '"' (parts.getD 0 "")
      let pidStr := trimMatches '"' (parts.getD 1 "")
      match parseUN (2 ^ 32) pidStr with
      | some pid => (pid, name) :: m
      | none => m
    else m) []

/-- Lookup in the pid map (latest binding wins). -/
def pidMapGet (pid : Nat) : List (Nat × String) → Option String
  | [] => none
  | (k, v) :: m => if k = pid then some v else pidMapGet pid m

/-- Lines 511-548: parse one netstat line into at most one record. -/
def parseNetstatLine (pidMap : List (Nat × String)) (line : String) :
    Option PortInfo :=
  let parts := splitWs line
  if parts.length ≥ 5 ∧ parts.getD 0 "" = "TCP" ∧
      parts.getD 3 "" = "LISTENING" then
    let localAddr := parts.getD 1 ""
    let pidStr := parts.getD 4 ""
    match (splitOnC localAddr ":").getLast? with
    | none => none
    | some portStr =>
      match parseUN (2 ^ 16) portStr, parseUN (2 ^ 32) pidStr with
      | some port, some pid =>
        some { port := port, pid := pid,
               name := (pidMapGet pid pidMap).getD "Unknown",
               protocol := "TCP" }
      | _, _ => none
  else if parts.length ≥ 4 ∧ parts.getD 0 "" = "UDP" then
    let localAddr := parts.getD 1 ""
    let pidStr := parts.getD 3 ""
    match (splitOnC localAddr ":").getLast? with
    | none => none
    | some portStr =>
      match parseUN (2 ^ 16) portStr, parseUN (2 ^ 32) pidStr with
      | some port, some pid =>
        some { port := port, pid := pid,
               name := (pidMapGet pid pidMap).getD "Unknown",
               protocol := "UDP" }
      | _, _ => none
  else none

/-- Stable insertion into a port-sorted accumulator: the new element
goes after every element whose port is `≤` its own, which is exactly
the placement a stable sort (`Vec::sort_by_key`) produces when
elements are fed left to right. -/
def insertByPort (x : PortInfo) : List PortInfo → List PortInfo
  | [] => [x]
  | y :: ys =>
    if y.port ≤ x.port then y :: insertByPort x ys else x :: y :: ys

/-- `ports.sort_by_key(|p| p.port)` — a stable sort by port. -/
def sortByPort (l : List PortInfo) : List PortInfo :=
  l.foldl (fun acc x => insertByPort x acc) []

/-- The `same_bucket` closure of line 553. -/
def sameTriple (a b : PortInfo) : Bool :=
  a.port == b.port && a.pid == b.pid && a.protocol == b.protocol

/-- `Vec::dedup_by` walk: drop each element equal (as a triple) to the
last kept one. -/
def dedupGo (prev : PortInfo) : List PortInfo → List PortInfo
  | [] => []
  | x :: xs =>
    if sameTriple x prev then dedupGo prev xs else x :: dedupGo x xs

/-- Line 553: `ports.dedup_by(...)` — collapse ADJACENT duplicate
(port, pid, protocol) triples. -/
def dedupPorts : List PortInfo → List PortInfo
  | [] => []
  | x :: xs => x :: dedupGo x xs

/-- `get_listening_ports` (lines 473-561): parse, sort by port,
dedup adjacent triples. -/
def getListeningPorts (tasklistOut netstatOut : String) : List PortInfo :=
  let pidMap := buildPidMap tasklistOut
  let ports := (rustLines netstatOut).filterMap (parseNetstatLine pidMap)
  dedupPorts (sortByPort ports)

/-! ## The interleaving machine

The supervisor's concurrency: `start_app` calls, `stop_app` calls, the
per-process exit watcher and the two output relays all run in parallel
and share the mutex-guarded registry.  Each atomic action below is one
critical section (or one lock-free emit) of the source; a schedule is
an arbitrary interleaving of thread steps.  Relay and watcher threads
are present from the start rather than spawned dynamically; a watcher
scheduled before its process is registered merely self-terminates, so
this only adds interleavings.

Ghost state (never read by the step function's control flow): the
`ins` field of registry entries and the `runs` log of completed runs,
recording for each run the event-log window it occupied. -/

/-- Ghost record of one completed run of a managed application: its id,
command string, and the event-log indices at insertion and removal. -/
structure RunRec where
  id : String
  path : String
  ins : Nat
  rem : Nat
deriving DecidableEq, Repr

/-- The shared state: registry, event log, and the ghost run log. -/
structure Glob where
  reg : Registry
  events : List Ev
  runs : List RunRec
deriving DecidableEq, Repr

/-- A thread with its local state.
* `tstart`: one `start_app` call; `pc` 0 = the `contains_key` check
  (lines 38-43), 1 = working-dir diagnostic (57-67), 2 = `spawn`
  (94-105), 3 = the `✓ Started` emit (110-113), 4 = the locked insert
  (115-118), 5 = returned (`res`).
* `tstop`: one `stop_app` call (190-244), a single critical section.
* `twatch`: the exit-watcher loop (150-185); `ticks` is the oracle
  stream of `try_wait` outcomes.
* `trelay`: one output-relay thread (120-146) with its remaining
  lines. -/
inductive Thread where
  | tstart (id path wd : String) (spawn : Except String Nat) (pc : Nat)
      (res : Option (Except String Unit))
  | tstop (id : String) (hint : Option String) (kill : KillExec)
      (done : Bool) (res : Option (Except String Unit))
  | twatch (id : String) (ticks : List TickOutcome) (done : Bool)
  | trelay (id : String) (isErr : Bool) (lines : List String)
deriving DecidableEq, Repr

/-- One atomic step of one thread against the shared state. -/
def threadStep (g : Glob) (t : Thread) : Glob × Thread :=
  match t with
  | .tstart id path wd spawn pc res =>
    match pc with
    | 0 =>
      if (rlookup id g.reg).isSome then
        (g, .tstart id path wd spawn 5 (some (.error "App is already running")))
      else (g, .tstart id path wd spawn 1 res)
    | 1 =>
      (if wd ≠ "" then
        { g with events := g.events ++ [.appOutput id (wdLine wd)] }
       else g,
       .tstart id path wd spawn 2 res)
    | 2 =>
      match spawn with
      | .error e =>
        ({ g with events := g.events ++ [.appOutput id (spawnFailLine e)] },
         .tstart id path wd spawn 5 (some (.error ("Failed to start: " ++ e))))
      | .ok _ => (g, .tstart id path wd spawn 3 res)
    | 3 =>
      ({ g with events := g.events ++ [.appOutput id (startedLine path)] },
       .tstart id path wd spawn 4 res)
    | 4 =>
      match spawn with
      | .ok h =>
        ({ g with reg := rinsert id ⟨h, path, g.events.length⟩ g.reg },
         .tstart id path wd spawn 5 (some (.ok ())))
      | .error _ => (g, .tstart id path wd spawn 5 res)
    | _ => (g, t)
  | .tstop id hint kill done _res =>
    if done then (g, t)
    else
      match rlookup id g.reg with
      | some e =>
        let es : List Ev :=
          [.appOutput id "■ Process stopped by user", .appStopped id]
        ({ reg := rremove id g.reg, events := g.events ++ es,
           runs := g.runs ++ [⟨id, e.path, e.ins, g.events.length + es.length⟩] },
         .tstop id hint kill true (some (.ok ())))
      | none =>
        match hint with
        | some name =>
          match kill with
          | .execFail e => (g, .tstop id hint kill true (some (.error e)))
          | .ran true _ =>
            ({ g with events := g.events ++
                [.appOutput id ("■ External process " ++ name ++ " stopped"),
                 .appStopped id] },
             .tstop id hint kill true (some (.ok ())))
          | .ran false _ =>
            (g, .tstop id hint kill true (some (.error "App is not running")))
        | none =>
          (g, .tstop id hint kill true (some (.error "App is not running")))
  | .twatch id ticks done =>
    if done then (g, t)
    else
      match rlookup id g.reg with
      | none => (g, .twatch id ticks true)
      | some e =>
        match ticks with
        | [] => (g, t)
        | o :: rest =>
          let w := watcherTick g.reg id o
          let runs' :=
            match o with
            | .running => g.runs
            | _ => g.runs ++ [⟨id, e.path, e.ins, g.events.length + w.2.1.length⟩]
          ({ reg := w.1, events := g.events ++ w.2.1, runs := runs' },
           .twatch id rest w.2.2)
  | .trelay id isErr lines =>
    match lines with
    | [] => (g, t)
    | l :: rest =>
      ({ g with events := g.events ++
          [if isErr then stderrEvent id l else stdoutEvent id l] },
       .trelay id isErr rest)

/-- The whole system: shared state plus the thread pool. -/
structure Sys where
  g : Glob
  threads : List Thread
deriving DecidableEq, Repr

/-- One scheduler step: run thread `i` (no-op on a bad index). -/
def mstep (s : Sys) (i : Nat) : Sys :=
  match s.threads[i]? with
  | none => s
  | some t =>
    let gt := threadStep s.g t
    ⟨gt.1, s.threads.set i gt.2⟩

/-- Run a whole schedule. -/
def mrun (s : Sys) (sched : List Nat) : Sys := sched.foldl mstep s

/-- A thread specification: a thread before its first step. -/
inductive TSpec where
  | sstart (id path wd : String) (spawn : Except String Nat)
  | sstop (id : String) (hint : Option String) (kill : KillExec)
  | swatch (id : String) (ticks : List TickOutcome)
  | srelay (id : String) (isErr : Bool) (lines : List String)
deriving DecidableEq, Repr

/-- The fresh thread for a specification. -/
def initThread : TSpec → Thread
  | .sstart id path wd spawn => .tstart id path wd spawn 0 none
  | .sstop id hint kill => .tstop id hint kill false none
  | .swatch id ticks => .twatch id ticks false
  | .srelay id isErr lines => .trelay id isErr lines

/-- The initial system: empty registry and logs, fresh threads. -/
def mkSys (specs : List TSpec) : Sys :=
  ⟨⟨[], [], []⟩, specs.map initThread⟩

/-! ## Event accounting -/

/-- Number of `app-stopped` events for `appId` in a log segment. -/
def stoppedCount (appId : String) : List Ev → Nat
  | [] => 0
  | .appStopped i :: l => (if i = appId then 1 else 0) + stoppedCount appId l
  | .appOutput _ _ :: l => stoppedCount appId l

/-- The `✓ Started` diagnostic for this id and command is in the
segment. -/
def startedIn (appId path : String) (l : List Ev) : Prop :=
  Ev.appOutput appId (startedLine path) ∈ l

instance (appId path : String) (l : List Ev) :
    Decidable (startedIn appId path l) := by
  unfold startedIn; infer_instance

theorem stoppedCount_append (appId : String) (l m : List Ev) :
    stoppedCount appId (l ++ m) =
      stoppedCount appId l + stoppedCount appId m := by
  induction l with
  | nil => simp [stoppedCount]
  | cons e l ih =>
    cases e with
    | appOutput a b => simp [stoppedCount, ih]
    | appStopped i => simp [stoppedCount, ih]; omega

theorem stoppedCount_output (appId a b : String) :
    stoppedCount appId [.appOutput a b] = 0 := rfl

theorem startedIn_append_left {appId path : String} {l : List Ev}
    (m : List Ev) (h : startedIn appId path l) :
    startedIn appId path (l ++ m) := List.mem_append_left m h

/-! ## Registry lemmas -/

theorem rlookup_none_ne {appId : String} {r : Registry}
    (h : rlookup appId r = none) : ∀ p ∈ r, p.1 ≠ appId := by
  induction r with
  | nil => simp
  | cons q r ih =>
    obtain ⟨k, e⟩ := q
    by_cases hk : k = appId
    · simp [rlookup, hk] at h
    · rw [rlookup, if_neg hk] at h
      intro p hp
      rcases List.mem_cons.1 hp with rfl | hp
      · exact hk
      · exact ih h p hp

theorem rlookup_mem {appId : String} {r : Registry} {e : Entry}
    (h : rlookup appId r = some e) : (appId, e) ∈ r := by
  induction r with
  | nil => simp [rlookup] at h
  | cons q r ih =>
    obtain ⟨k, e'⟩ := q
    by_cases hk : k = appId
    · subst hk
      rw [rlookup, if_pos rfl] at h
      cases h
      exact List.mem_cons_self _ _
    · rw [rlookup, if_neg hk] at h
      exact List.mem_cons_of_mem _ (ih h)

theorem mem_rremove {p : String × Entry} {appId : String} {r : Registry}
    (h : p ∈ rremove appId r) : p ∈ r ∧ p.1 ≠ appId := by
  unfold rremove at h
  have h1 := List.mem_filter.1 h
  exact ⟨h1.1, by simpa using h1.2⟩

theorem rremove_sublist (appId : String) (r : Registry) :
    List.Sublist (rremove appId r) r := List.filter_sublist r

theorem rlookup_rremove_self (appId : String) (r : Registry) :
    rlookup appId (rremove appId r) = none := by
  induction r with
  | nil => rfl
  | cons q r ih =>
    obtain ⟨k, e⟩ := q
    by_cases hk : k = appId
    · simpa [rremove, List.filter_cons, hk] using ih
    · simpa [rremove, List.filter_cons, hk, rlookup] using ih

theorem keys_nodup_rremove {appId : String} {r : Registry}
    (h : (r.map Prod.fst).Nodup) :
    ((rremove appId r).map Prod.fst).Nodup :=
  h.sublist ((rremove_sublist appId r).map Prod.fst)

theorem keys_nodup_rinsert {appId : String} {e : Entry} {r : Registry}
    (h : (r.map Prod.fst).Nodup) :
    ((rinsert appId e r).map Prod.fst).Nodup := by
  unfold rinsert
  rw [List.map_cons, List.nodup_cons]
  constructor
  · intro hmem
    rcases List.mem_map.1 hmem with ⟨p, hp, hfst⟩
    exact (mem_rremove hp).2 hfst
  · exact keys_nodup_rremove h

/-! ## The invariant -/

/-- A live registry entry's history is consistent: it was inserted at a
log position that exists, its `✓ Started` line is in the log before
that position, and no `app-stopped` for its id has been emitted since.
-/
def EntryOK (ev : List Ev) (appId : String) (e : Entry) : Prop :=
  e.ins ≤ ev.length ∧ startedIn appId e.path (ev.take e.ins) ∧
    stoppedCount appId (ev.drop e.ins) = 0

/-- A completed run occupies a well-formed log window, its `✓ Started`
line precedes the window, and the window contains at most one
`app-stopped` for its id. -/
def RunOK (ev : List Ev) (r : RunRec) : Prop :=
  r.ins ≤ r.rem ∧ r.rem ≤ ev.length ∧
    startedIn r.id r.path (ev.take r.ins) ∧
    stoppedCount r.id ((ev.take r.rem).drop r.ins) ≤ 1

/-- Thread-local invariant: a `start_app` thread about to insert
(pc = 4) has already emitted its `✓ Started` line. -/
def ThreadOK (ev : List Ev) : Thread → Prop
  | .tstart appId path _ _ pc _ => pc = 4 → startedIn appId path ev
  | _ => True

/-- The shared-state invariant. -/
def GlobOK (g : Glob) : Prop :=
  (∀ p ∈ g.reg, EntryOK g.events p.1 p.2) ∧
    (∀ r ∈ g.runs, RunOK g.events r) ∧ (g.reg.map Prod.fst).Nodup

/-- The system invariant. -/
def Inv (s : Sys) : Prop :=
  GlobOK s.g ∧ ∀ t ∈ s.threads, ThreadOK s.g.events t

instance (ev : List Ev) (r : RunRec) : Decidable (RunOK ev r) := by
  unfold RunOK; infer_instance

instance (ev : List Ev) (appId : String) (e : Entry) :
    Decidable (EntryOK ev appId e) := by
  unfold EntryOK; infer_instance

theorem EntryOK_append {ev es : List Ev} {appId : String} {e : Entry}
    (h : EntryOK ev appId e) (hz : stoppedCount appId es = 0) :
    EntryOK (ev ++ es) appId e := by
  obtain ⟨h1, h2, h3⟩ := h
  refine ⟨?_, ?_, ?_⟩
  · rw [List.length_append]; exact le_trans h1 (Nat.le_add_right _ _)
  · rw [List.take_append_of_le_length h1]; exact h2
  · rw [List.drop_append_of_le_length h1, stoppedCount_append, h3, hz]

theorem RunOK_append {ev es : List Ev} {r : RunRec}
    (h : RunOK ev r) : RunOK (ev ++ es) r := by
  obtain ⟨h1, h2, h3, h4⟩ := h
  refine ⟨h1, ?_, ?_, ?_⟩
  · rw [List.length_append]; exact le_trans h2 (Nat.le_add_right _ _)
  · rw [List.take_append_of_le_length (le_trans h1 h2)]; exact h3
  · rw [List.take_append_of_le_length h2]; exact h4

theorem ThreadOK_append {ev es : List Ev} {t : Thread}
    (h : ThreadOK ev t) : ThreadOK (ev ++ es) t := by
  cases t with
  | tstart appId path wd spawn pc res =>
    intro hpc
    exact startedIn_append_left es (h hpc)
  | tstop _ _ _ _ _ => trivial
  | twatch _ _ _ => trivial
  | trelay _ _ _ => trivial

theorem GlobOK_append {g : Glob} {es : List Ev} (hG : GlobOK g)
    (hz : ∀ appId, stoppedCount appId es = 0) :
    GlobOK ⟨g.reg, g.events ++ es, g.runs⟩ := by
  obtain ⟨hE, hR, hN⟩ := hG
  exact ⟨fun p hp => EntryOK_append (hE p hp) (hz p.1),
         fun r hr => RunOK_append (hR r hr), hN⟩

theorem GlobOK_external {g : Glob} {appId : String} {es : List Ev}
    (hG : GlobOK g) (habs : rlookup appId g.reg = none)
    (hz : ∀ i, i ≠ appId → stoppedCount i es = 0) :
    GlobOK ⟨g.reg, g.events ++ es, g.runs⟩ := by
  obtain ⟨hE, hR, hN⟩ := hG
  refine ⟨fun p hp => ?_, fun r hr => RunOK_append (hR r hr), hN⟩
  exact EntryOK_append (hE p hp) (hz p.1 (rlookup_none_ne habs p hp))

theorem GlobOK_insert {g : Glob} {appId path : String} {h : Nat}
    (hG : GlobOK g) (hs : startedIn appId path g.events) :
    GlobOK ⟨rinsert appId ⟨h, path, g.events.length⟩ g.reg,
            g.events, g.runs⟩ := by
  obtain ⟨hE, hR, hN⟩ := hG
  refine ⟨fun p hp => ?_, hR, keys_nodup_rinsert hN⟩
  rcases List.mem_cons.1 hp with rfl | hp
  · exact ⟨le_refl _, by rw [List.take_length]; exact hs,
           by rw [List.drop_length]; rfl⟩
  · exact hE p (mem_rremove hp).1

theorem GlobOK_remove {g : Glob} {appId : String} {e : Entry}
    {es : List Ev} (hG : GlobOK g) (hl : rlookup appId g.reg = some e)
    (h1 : stoppedCount appId es ≤ 1)
    (hz : ∀ i, i ≠ appId → stoppedCount i es = 0) :
    GlobOK ⟨rremove appId g.reg, g.events ++ es,
            g.runs ++ [⟨appId, e.path, e.ins, g.events.length + es.length⟩]⟩ := by
  obtain ⟨hE, hR, hN⟩ := hG
  obtain ⟨hi1, hi2, hi3⟩ := hE (appId, e) (rlookup_mem hl)
  dsimp only at hi1 hi2 hi3
  refine ⟨fun p hp => ?_, fun r hr => ?_, keys_nodup_rremove hN⟩
  · obtain ⟨hpr, hpne⟩ := mem_rremove hp
    exact EntryOK_append (hE p hpr) (hz p.1 hpne)
  · rcases List.mem_append.1 hr with hr | hr
    · exact RunOK_append (hR r hr)
    · rcases List.mem_singleton.1 hr with rfl
      unfold RunOK
      dsimp only
      refine ⟨le_trans hi1 (Nat.le_add_right _ _),
              le_of_eq (List.length_append _ _).symm, ?_, ?_⟩
      · rw [List.take_append_of_le_length hi1]; exact hi2
      · have htake : (g.events ++ es).take (g.events.length + es.length) =
            g.events ++ es := by
          rw [← List.length_append]; exact List.take_length _
        rw [htake, List.drop_append_of_le_length hi1,
            stoppedCount_append, hi3]
        omega

theorem stop_es_count_self (appId a b : String) :
    stoppedCount appId [.appOutput a b, .appStopped appId] = 1 := by
  simp [stoppedCount]

theorem stop_es_count_ne {i appId : String} (h : i ≠ appId) (a b : String) :
    stoppedCount i [.appOutput a b, .appStopped appId] = 0 := by
  simp [stoppedCount, if_neg (Ne.symm h)]

/-- Each atomic step preserves the shared invariant, keeps the stepped
thread's local invariant, and only appends to the event log. -/
theorem threadStep_ok {g : Glob} {t : Thread} (hG : GlobOK g)
    (hT : ThreadOK g.events t) :
    GlobOK (threadStep g t).1 ∧
      ThreadOK (threadStep g t).1.events (threadStep g t).2 ∧
      ∃ es, (threadStep g t).1.events = g.events ++ es := by
  cases t with
  | tstart id path wd spawn pc res =>
    rcases pc with _ | _ | _ | _ | _ | pc
    · by_cases hc : (rlookup id g.reg).isSome
      · simp only [threadStep, if_pos hc]
        exact ⟨hG, fun h => by omega, [], by simp [threadStep]⟩
      · simp only [threadStep, if_neg hc]
        exact ⟨hG, fun h => by omega, [], by simp [threadStep]⟩
    · by_cases hwd : wd ≠ ""
      · simp only [threadStep, if_pos hwd]
        exact ⟨GlobOK_append hG (fun i => rfl), fun h => by omega, _, rfl⟩
      · simp only [threadStep, if_neg hwd]
        exact ⟨hG, fun h => by omega, [], by simp [threadStep]⟩
    · cases spawn with
      | error e =>
        exact ⟨GlobOK_append hG (fun i => rfl), fun h => by omega, _, rfl⟩
      | ok h => exact ⟨hG, fun h => by omega, [], by simp [threadStep]⟩
    · refine ⟨GlobOK_append hG (fun i => rfl), fun _ => ?_, _, rfl⟩
      exact List.mem_append_right _ (List.mem_singleton_self _)
    · cases spawn with
      | error e => exact ⟨hG, fun h => by omega, [], by simp [threadStep]⟩
      | ok h =>
        exact ⟨GlobOK_insert hG (hT rfl), fun h => by omega, [], by simp [threadStep]⟩
    · exact ⟨hG, hT, [], by simp [threadStep]⟩
  | tstop id hint kill done res =>
    cases done with
    | true => exact ⟨hG, trivial, [], by simp [threadStep]⟩
    | false =>
      cases hl : rlookup id g.reg with
      | some e =>
        simp only [threadStep, Bool.false_eq_true, if_neg, hl]
        refine ⟨GlobOK_remove hG hl ?_ ?_, trivial, _, rfl⟩
        · rw [stop_es_count_self]
        · exact fun i hi => stop_es_count_ne hi _ _
      | none =>
        cases hint with
        | some name =>
          cases kill with
          | execFail e =>
            simp only [threadStep, hl]
            exact ⟨hG, trivial, [], by simp [threadStep]⟩
          | ran success serr =>
            cases success with
            | true =>
              simp only [threadStep, hl]
              refine ⟨GlobOK_external hG hl ?_, trivial, _, rfl⟩
              exact fun i hi => stop_es_count_ne hi _ _
            | false =>
              simp only [threadStep, hl]
              exact ⟨hG, trivial, [], by simp [threadStep]⟩
        | none =>
          simp only [threadStep, hl]
          exact ⟨hG, trivial, [], by simp [threadStep]⟩
  | twatch id ticks done =>
    cases done with
    | true => exact ⟨hG, trivial, [], by simp [threadStep]⟩
    | false =>
      cases hl : rlookup id g.reg with
      | none =>
        simp only [threadStep, hl]
        exact ⟨hG, trivial, [], by simp [threadStep]⟩
      | some e =>
        cases ticks with
        | nil =>
          simp only [threadStep, hl]
          exact ⟨hG, trivial, [], by simp [threadStep]⟩
        | cons o rest =>
          cases o with
          | running =>
            simp only [threadStep, hl, watcherTick]
            exact ⟨by simpa using hG, trivial, [], by simp⟩
          | exited st =>
            simp only [threadStep, hl, watcherTick]
            refine ⟨GlobOK_remove hG hl ?_ ?_, trivial, _, rfl⟩
            · rw [stop_es_count_self]
            · exact fun i hi => stop_es_count_ne hi _ _
          | checkErr =>
            simp only [threadStep, hl, watcherTick]
            refine ⟨?_, trivial, [], by simp⟩
            have := @GlobOK_remove g id e [] hG hl
              (by simp [stoppedCount]) (fun i _ => rfl)
            simpa using this
  | trelay id isErr lines =>
    cases lines with
    | nil => exact ⟨hG, trivial, [], by simp [threadStep]⟩
    | cons l rest =>
      refine ⟨GlobOK_append hG (fun i => ?_), trivial, _, rfl⟩
      cases isErr
      · rfl
      · rfl

/-- One scheduler step preserves the system invariant. -/
theorem mstep_inv {s : Sys} (i : Nat) (h : Inv s) : Inv (mstep s i) := by
  obtain ⟨hG, hTs⟩ := h
  unfold mstep
  cases hti : s.threads[i]? with
  | none => exact ⟨hG, hTs⟩
  | some t =>
    have htm : t ∈ s.threads := List.getElem?_mem hti
    obtain ⟨hG', hT', es, hes⟩ := threadStep_ok hG (hTs t htm)
    refine ⟨hG', fun t' ht' => ?_⟩
    rcases List.mem_or_eq_of_mem_set ht' with ht' | rfl
    · rw [hes]
      exact ThreadOK_append (hTs t' ht')
    · exact hT'

/-- Any schedule preserves the system invariant. -/
theorem mrun_inv {s : Sys} (h : Inv s) :
    ∀ sched : List Nat, Inv (mrun s sched) := by
  intro sched
  induction sched generalizing s with
  | nil => exact h
  | cons i sched ih => exact ih (mstep_inv i h)

/-- The initial system satisfies the invariant. -/
theorem mkSys_inv (specs : List TSpec) : Inv (mkSys specs) := by
  refine ⟨⟨by simp [mkSys], by simp [mkSys], by simp [mkSys]⟩, ?_⟩
  intro t ht
  rcases List.mem_map.1 ht with ⟨sp, _, rfl⟩
  cases sp with
  | sstart id path wd spawn => exact fun h => by omega
  | sstop id hint kill => trivial
  | swatch id ticks => trivial
  | srelay id isErr lines => trivial

/-- The system invariant holds in every reachable state. -/
theorem machineInv (specs : List TSpec) (sched : List Nat) :
    Inv (mrun (mkSys specs) sched) :=
  mrun_inv (mkSys_inv specs) sched

/-! ## Supporting lemmas for the claims -/

theorem data_append (a b : String) : (a ++ b).data = a.data ++ b.data := rfl

theorem exitMsg_ne_zero {c : Int} (hc : c ≠ 0) : exitMsg c ≠ exitMsg 0 := by
  unfold exitMsg
  rw [if_neg hc, if_pos rfl]
  intro h
  have hd := congrArg String.data h
  rw [data_append] at hd
  have h2 := congrArg (List.take 1) hd
  rw [List.take_append_of_le_length (by decide)] at h2
  exact absurd h2 (by decide)

theorem isPrefixOf_append_self :
    ∀ l m : List Char, l.isPrefixOf (l ++ m) = true := by
  intro l m
  induction l with
  | nil => simp [List.isPrefixOf]
  | cons c l ih => simp [List.isPrefixOf, ih]

theorem mem_insertByPort {a x : PortInfo} :
    ∀ {l : List PortInfo}, a ∈ insertByPort x l → a = x ∨ a ∈ l := by
  intro l
  induction l with
  | nil => intro h; simpa [insertByPort] using h
  | cons y ys ih =>
    intro h
    rw [insertByPort] at h
    by_cases hc : y.port ≤ x.port
    · rw [if_pos hc] at h
      rcases List.mem_cons.1 h with rfl | h
      · exact Or.inr (List.mem_cons_self _ _)
      · rcases ih h with h | h
        · exact Or.inl h
        · exact Or.inr (List.mem_cons_of_mem _ h)
    · rw [if_neg hc] at h
      rcases List.mem_cons.1 h with rfl | h
      · exact Or.inl rfl
      · exact Or.inr h

theorem pairwise_insertByPort {x : PortInfo} :
    ∀ {l : List PortInfo},
      l.Pairwise (fun a b => a.port ≤ b.port) →
      (insertByPort x l).Pairwise (fun a b => a.port ≤ b.port) := by
  intro l
  induction l with
  | nil => intro _; simp [insertByPort]
  | cons y ys ih =>
    intro h
    rw [List.pairwise_cons] at h
    rw [insertByPort]
    by_cases hc : y.port ≤ x.port
    · rw [if_pos hc, List.pairwise_cons]
      refine ⟨fun a ha => ?_, ih h.2⟩
      rcases mem_insertByPort ha with rfl | ha
      · exact hc
      · exact h.1 a ha
    · rw [if_neg hc, List.pairwise_cons]
      refine ⟨fun a ha => ?_, List.pairwise_cons.2 h⟩
      rcases List.mem_cons.1 ha with rfl | ha
      · exact le_of_not_le hc
      · exact le_trans (le_of_not_le hc) (h.1 a ha)

theorem sortByPort_pairwise (l : List PortInfo) :
    (sortByPort l).Pairwise (fun a b => a.port ≤ b.port) := by
  unfold sortByPort
  suffices h : ∀ acc : List PortInfo,
      acc.Pairwise (fun a b => a.port ≤ b.port) →
      (l.foldl (fun acc x => insertByPort x acc) acc).Pairwise
        (fun a b => a.port ≤ b.port) from h [] (by simp)
  induction l with
  | nil => intro acc h; exact h
  | cons x xs ih =>
    intro acc h
    exact ih _ (pairwise_insertByPort h)

theorem dedupGo_sublist : ∀ (l : List PortInfo) (p : PortInfo),
    List.Sublist (dedupGo p l) l := by
  intro l
  induction l with
  | nil => intro p; exact List.Sublist.refl _
  | cons x xs ih =>
    intro p
    rw [dedupGo]
    by_cases hc : sameTriple x p = true
    · rw [if_pos hc]
      exact List.Sublist.cons x (ih p)
    · rw [if_neg hc]
      exact List.Sublist.cons₂ x (ih x)

theorem dedupPorts_sublist (l : List PortInfo) :
    List.Sublist (dedupPorts l) l := by
  cases l with
  | nil => exact List.Sublist.refl _
  | cons x xs => exact List.Sublist.cons₂ x (dedupGo_sublist xs x)

theorem dedupGo_chain : ∀ (l : List PortInfo) (p : PortInfo),
    List.Chain' (fun a b => sameTriple b a = false) (p :: dedupGo p l) := by
  intro l
  induction l with
  | nil => intro p; exact List.chain'_singleton _
  | cons x xs ih =>
    intro p
    rw [dedupGo]
    by_cases hc : sameTriple x p = true
    · rw [if_pos hc]
      exact ih p
    · rw [if_neg hc]
      exact List.chain'_cons.2 ⟨Bool.eq_false_iff.2 hc, ih x⟩

theorem dedupPorts_chain (l : List PortInfo) :
    List.Chain' (fun a b => sameTriple b a = false) (dedupPorts l) := by
  cases l with
  | nil => simp [dedupPorts]
  | cons x xs => exact dedupGo_chain xs x

/-! ## Claim C1 -/

/-- Number of `start_app` calls in the system that returned `Ok`. -/
def okStartCount (s : Sys) : Nat :=
  (s.threads.filterMap (fun t =>
    match t with
    | .tstart _ _ _ _ _ res => some res
    | _ => none)).countP (fun r => decide (r = some (.ok ())))

/-- Two concurrent `start_app` calls for the same id `"x"`. -/
def c1Specs : List TSpec :=
  [.sstart "x" "p" "" (.ok 1), .sstart "x" "p" "" (.ok 2)]

/-- C1, counterexample.  The claim says that for every pair of
concurrent `start` calls with the same `app_id` at most one can
succeed.  False: the lock is dropped between the `contains_key` check
(lines 38-43) and the insert (lines 115-118), so the schedule that runs
both checks before either insert lets both calls return `Ok`. -/
theorem c1_counterexample :
    ¬ ∀ sched : List Nat,
        okStartCount (mrun (mkSys c1Specs) sched) ≤ 1 := by
  intro h
  exact absurd (h [0, 1, 0, 0, 0, 0, 1, 1, 1, 1]) (by decide)

/-- C1, amended.  The Registry lock is held separately for the
membership check and for the insert, so two concurrent `start` calls
with the same `app_id` CAN both succeed (`c1_counterexample`), the
second insert silently replacing the first handle; but the Registry
itself — a map — still never holds more than one live Process Handle
per Application Identifier at any instant, in any reachable state of
any schedule. -/
theorem c1_registry_at_most_one_handle_per_id
    (specs : List TSpec) (sched : List Nat) :
    ((mrun (mkSys specs) sched).g.reg.map Prod.fst).Nodup :=
  (machineInv specs sched).1.2.2

/-! ## Claim C2 -/

/-- C2: a `start_app` call that returns an error — `AlreadyRunning`
because the id is present, or `SpawnError` because the OS refused —
leaves the Registry unchanged; the `AlreadyRunning` check precedes any
spawn attempt. -/
theorem start_error_leaves_registry_unchanged
    (reg0 : List (String × Nat))
    (appId path appType workingDir args envVars : String)
    (isWindows : Bool) (parentDir : Option String) (parentExists : Bool)
    (spawn : Except String Nat) :
    (∀ e, (startApp reg0 appId path appType workingDir args envVars
              isWindows parentDir parentExists spawn).res = .error e →
        (startApp reg0 appId path appType workingDir args envVars
            isWindows parentDir parentExists spawn).reg = reg0) ∧
    (regContains appId reg0 = true →
        (startApp reg0 appId path appType workingDir args envVars
            isWindows parentDir parentExists spawn).res =
          .error "App is already running" ∧
        (startApp reg0 appId path appType workingDir args envVars
            isWindows parentDir parentExists spawn).spawnAttempted = false) := by
  unfold startApp
  by_cases hc : regContains appId reg0
  · rw [if_pos hc]
    exact ⟨fun e _ => rfl, fun _ => ⟨rfl, rfl⟩⟩
  · rw [if_neg hc]
    cases spawn with
    | error e => exact ⟨fun e' _ => rfl, fun h => absurd h hc⟩
    | ok h => exact ⟨fun e' he => Except.noConfusion he, fun h => absurd h hc⟩

/-- Witness for C2 at concrete inputs: a call on a present id errors
without attempting a spawn; a call whose spawn fails leaves the (empty)
registry empty. -/
theorem start_error_leaves_registry_unchanged_witness :
    (startApp [("x", 7)] "x" "p" "t" "" "" "" true none false
        (.ok 3)).res = .error "App is already running" ∧
    (startApp [("x", 7)] "x" "p" "t" "" "" "" true none false
        (.ok 3)).spawnAttempted = false ∧
    (startApp [] "y" "p" "t" "" "" "" true none false
        (.error "boom")).reg = [] := by
  refine ⟨?_, ?_, ?_⟩
  · exact ((start_error_leaves_registry_unchanged [("x", 7)] "x" "p" "t"
      "" "" "" true none false (.ok 3)).2 (by decide)).1
  · exact ((start_error_leaves_registry_unchanged [("x", 7)] "x" "p" "t"
      "" "" "" true none false (.ok 3)).2 (by decide)).2
  · exact (start_error_leaves_registry_unchanged [] "y" "p" "t"
      "" "" "" true none false (.error "boom")).1
      "Failed to start: boom" (by decide)

/-! ## Claim C3 -/

/-- C3: in every reachable state of every schedule, every completed run
satisfies `RunOK` — the `✓ Started` diagnostic precedes the run's
insertion point and the run's event window contains at most one
`app-stopped` for its id (whether it ended by watcher-observed exit, by
an explicit stop, or with both racing) — and every live registry entry
satisfies `EntryOK` — its `✓ Started` has completed and no
`app-stopped` for its id has been emitted since insertion. -/
theorem stopped_at_most_once_per_run
    (specs : List TSpec) (sched : List Nat) :
    (∀ r ∈ (mrun (mkSys specs) sched).g.runs,
        RunOK (mrun (mkSys specs) sched).g.events r) ∧
    (∀ p ∈ (mrun (mkSys specs) sched).g.reg,
        EntryOK (mrun (mkSys specs) sched).g.events p.1 p.2) := by
  obtain ⟨⟨hE, hR, _⟩, _⟩ := machineInv specs sched
  exact ⟨hR, hE⟩

/-- A start followed by a watcher that observes a clean exit. -/
def c3Specs : List TSpec :=
  [.sstart "x" "p" "" (.ok 1), .swatch "x" [.exited (some 0)]]

/-- Witness for C3: the completed run of the demo schedule (start fully
runs, then the watcher observes exit code 0) satisfies `RunOK`. -/
theorem stopped_at_most_once_per_run_witness :
    RunOK (mrun (mkSys c3Specs) [0, 0, 0, 0, 0, 1]).g.events
      ⟨"x", "p", 1, 3⟩ :=
  (stopped_at_most_once_per_run c3Specs [0, 0, 0, 0, 0, 1]).1
    ⟨"x", "p", 1, 3⟩ (by decide)

/-! ## Claim C4 -/

/-- A netstat output exhibiting the duplicate-survival: two LISTENING
lines for the same socket separated by a line with the same port but a
different pid. -/
def c4Netstat : String :=
  "TCP 0.0.0.0:80 0.0.0.0:0 LISTENING 1\n" ++
  "TCP 0.0.0.0:80 0.0.0.0:0 LISTENING 2\n" ++
  "TCP 0.0.0.0:80 0.0.0.0:0 LISTENING 1"

/-- C4, counterexample.  The claim says the returned list never
contains two records with the same (port, pid, protocol) triple.
False: `dedup_by` (line 553) only collapses ADJACENT duplicates, and
the stable sort by port alone (line 551) keeps insertion order among
equal ports, so the triple (80, 1, TCP) survives twice in this
output. -/
theorem ports_duplicate_triple_counterexample :
    ¬ List.Pairwise
        (fun a b : PortInfo =>
          ¬(a.port = b.port ∧ a.pid = b.pid ∧ a.protocol = b.protocol))
        (getListeningPorts "" c4Netstat) := by
  decide

/-- C4, amended.  For every OS process/port table input the returned
list is sorted ascending by port, and no two ADJACENT records share the
same (port, pid, protocol) triple; duplicate triples can still recur
non-adjacently when a record with the same port but a different pid or
protocol sits between them after the stable sort. -/
theorem ports_sorted_and_adjacent_deduped (tasklistOut netstatOut : String) :
    (getListeningPorts tasklistOut netstatOut).Pairwise
      (fun a b => a.port ≤ b.port) ∧
    (getListeningPorts tasklistOut netstatOut).Chain'
      (fun a b => sameTriple b a = false) := by
  unfold getListeningPorts
  constructor
  · exact (sortByPort_pairwise _).sublist (dedupPorts_sublist _)
  · exact dedupPorts_chain _

/-! ## Claim C5 -/

/-- C5: when the watcher observes an exit status for a registered app,
the tick emits the diagnostic line followed by exactly one
`app-stopped`, removes the registry entry, terminates the watcher, and
the diagnostic text for a nonzero exit code always differs from the
text for exit code 0. -/
theorem watcher_exit_reports_and_removes (reg : Registry)
    (appId : String) (e : Entry) (st : Option Int)
    (hl : rlookup appId reg = some e) :
    (watcherTick reg appId (.exited st)).2.1 =
      [.appOutput appId (exitMsg (st.getD (-1))), .appStopped appId] ∧
    stoppedCount appId (watcherTick reg appId (.exited st)).2.1 = 1 ∧
    rlookup appId (watcherTick reg appId (.exited st)).1 = none ∧
    (watcherTick reg appId (.exited st)).2.2 = true ∧
    (st.getD (-1) ≠ 0 → exitMsg (st.getD (-1)) ≠ exitMsg 0) := by
  unfold watcherTick
  rw [hl]
  exact ⟨rfl, stop_es_count_self _ _ _, rlookup_rremove_self _ _, rfl,
    fun hz => exitMsg_ne_zero hz⟩

/-- Witness for C5: a registered app whose process exits with code 3.
-/
theorem watcher_exit_reports_and_removes_witness :
    (watcherTick [("x", ⟨1, "p", 0⟩)] "x" (.exited (some 3))).2.1 =
      [.appOutput "x" (exitMsg 3), .appStopped "x"] ∧
    stoppedCount "x"
      (watcherTick [("x", ⟨1, "p", 0⟩)] "x" (.exited (some 3))).2.1 = 1 ∧
    rlookup "x"
      (watcherTick [("x", ⟨1, "p", 0⟩)] "x" (.exited (some 3))).1 = none ∧
    exitMsg 3 ≠ exitMsg 0 := by
  have h := watcher_exit_reports_and_removes [("x", ⟨1, "p", 0⟩)] "x"
    ⟨1, "p", 0⟩ (some 3) (by decide)
  exact ⟨h.1, h.2.1, h.2.2.1, h.2.2.2.2 (by decide)⟩

/-! ## Claim C6 -/

/-- C6, counterexample.  The claim says every Output Event is a record
containing the app id, the line, and a stream tag identifying stdout
vs stderr.  False: the payload is `{appId, line}` only; no tagging of
the record can identify the stream, because a stdout line that itself
begins with `"[stderr] "` yields the very same record as a stderr
line. -/
theorem output_event_stream_tag_counterexample :
    ¬ ∃ tag : Ev → Bool,
        (∀ appId line, tag (stdoutEvent appId line) = false) ∧
        (∀ appId line, tag (stderrEvent appId line) = true) := by
  rintro ⟨tag, hout, herr⟩
  have h1 := hout "a" "[stderr] x"
  have h2 := herr "a" "x"
  have heq : stdoutEvent "a" "[stderr] x" = stderrEvent "a" "x" := by decide
  rw [heq, h2] at h1
  exact Bool.noConfusion h1

/-- C6, amended.  Every Output Event delivered to the GUI is a record
containing the application id and the line of text; the stream is
marked only in-band — stderr lines are prefixed with `"[stderr] "`,
stdout lines are forwarded verbatim — so the origin is recoverable
exactly when the stdout text does not itself begin with the marker. -/
theorem output_event_payload (appId line line' : String) :
    stdoutEvent appId line = .appOutput appId line ∧
    stderrEvent appId line = .appOutput appId ("[stderr] " ++ line) ∧
    (List.isPrefixOf "[stderr] ".data line.data = false →
      stdoutEvent appId line ≠ stderrEvent appId line') := by
  refine ⟨rfl, rfl, fun hp heq => ?_⟩
  have hline : line = "[stderr] " ++ line' := by
    cases heq
    rfl
  rw [hline, data_append, isPrefixOf_append_self] at hp
  exact Bool.noConfusion hp

/-- Witness for C6 (amended): a concrete stdout line not starting with
the marker is distinguishable from every stderr event. -/
theorem output_event_payload_witness :
    stdoutEvent "a" "hello" ≠ stderrEvent "a" "x" :=
  (output_event_payload "a" "hello" "x").2.2 (by decide)

/-! ## Claim C7 -/

/-- C7: if the user block assigns a variable (its last assignment being
`v`), that value — not the unconditionally applied UTF-8 default of the
same name — is the one visible in the final process environment. -/
theorem start_env_user_overrides_defaults (envVars k v : String)
    (h : lastAssign k (parseEnvBlock envVars) = some v) :
    envLookup k (buildEnv envVars) = some v := by
  unfold buildEnv
  rw [envLookup_applyEnv, h]

/-- Witness for C7: a user block overriding `PYTHONIOENCODING`. -/
theorem start_env_user_overrides_defaults_witness :
    envLookup "PYTHONIOENCODING" (buildEnv "PYTHONIOENCODING=latin-1") =
      some "latin-1" :=
  start_env_user_overrides_defaults "PYTHONIOENCODING=latin-1"
    "PYTHONIOENCODING" "latin-1" (by decide)

/-! ## Claim C8 -/

/-- C8: a watcher tick for an id no longer in the Registry terminates
the watcher silently (no events, registry untouched); a tick whose
liveness check errors removes the entry and terminates without
emitting any event, in particular no `app-stopped`. -/
theorem watcher_absent_or_error_silent (reg : Registry)
    (appId : String) (o : TickOutcome) (e : Entry) :
    (rlookup appId reg = none →
        watcherTick reg appId o = (reg, [], true)) ∧
    (rlookup appId reg = some e →
        watcherTick reg appId .checkErr = (rremove appId reg, [], true) ∧
        stoppedCount appId (watcherTick reg appId .checkErr).2.1 = 0) := by
  constructor
  · intro h
    unfold watcherTick
    rw [h]
  · intro h
    unfold watcherTick
    rw [h]
    exact ⟨rfl, rfl⟩

/-- Witness for C8 at concrete registries. -/
theorem watcher_absent_or_error_silent_witness :
    watcherTick [] "x" .running = ([], [], true) ∧
    watcherTick [("x", ⟨1, "p", 0⟩)] "x" .checkErr =
      (rremove "x" [("x", ⟨1, "p", 0⟩)], [], true) := by
  refine ⟨?_, ?_⟩
  · exact (watcher_absent_or_error_silent [] "x" .running
      ⟨1, "p", 0⟩).1 (by decide)
  · exact ((watcher_absent_or_error_silent [("x", ⟨1, "p", 0⟩)] "x"
      .running ⟨1, "p", 0⟩).2 (by decide)).1

/-! ## Claim C9 -/

/-- C9: killing by a name that matches zero running processes returns
success, not an error — the `taskkill` failure whose stderr reports
`not found` is normalised to `Ok` (idempotent kill). -/
theorem kill_by_name_zero_matches_ok (name : String) :
    killProcessByName name (taskkillZeroMatch name) = .ok () := by
  unfold killProcessByName taskkillZeroMatch
  have hsub : containsSub
      ("ERROR: The process \"" ++ name ++ "\" not found.") "not found" =
      true := by
    unfold containsSub
    rw [decide_eq_true_eq]
    have h1 : "not found".data <:+: "\" not found.".data := by decide
    have h2 : List.IsSuffix "\" not found.".data
        (("ERROR: The process \"" ++ name ++ "\" not found.").data) := by
      rw [data_append, data_append]
      exact List.suffix_append _ _
    exact h1.trans h2.isInfix
  simp [hsub]

/-! ## Claim C10 -/

/-- C10: the `app_type` and `args` parameters of `start_app` are
accepted and ignored (they are `_`-bound in the source): two calls
agreeing on everything else produce identical results — same outcome,
same registry, same events, and the same constructed process
specification. -/
theorem start_ignores_app_type_and_args
    (reg0 : List (String × Nat)) (appId path : String)
    (appType1 appType2 workingDir args1 args2 envVars : String)
    (isWindows : Bool) (parentDir : Option String) (parentExists : Bool)
    (spawn : Except String Nat) :
    startApp reg0 appId path appType1 workingDir args1 envVars
        isWindows parentDir parentExists spawn =
      startApp reg0 appId path appType2 workingDir args2 envVars
        isWindows parentDir parentExists spawn := rfl

end AppCtrl
